import Mathlib

/-!
Verification development for `src/cmd/zoekt-sandbox/mkbox.c` (the sandbox
bootstrap of google/zoekt).  The program is shallowly embedded as a
deterministic interpreter: the kernel's answers to environment-determined
system calls (mount, unshare, chdir, writes to the id-map files, ...) are
supplied by an oracle `Nat → Bool` indexed by the order in which those calls
are issued, while path-dependent calls (stat, lstat, mkdir, open-with-create)
are answered by a model filesystem mapping path strings to file kinds.
Every system call the program issues is recorded, together with its result,
in a trace; the run ends either in `exited` (some `exit(-1)` path: `errorf`
or a failed `ok(...)`-checked call) or in `execed` (the final `execv`
replaced the process image).
-/

set_option linter.unusedVariables false

namespace Mkbox

/-- File kinds distinguished by the model filesystem (`S_ISDIR` vs the rest). -/
inductive FType
  | dir
  | file
deriving DecidableEq, Repr

/-- The model filesystem: an association list from path strings to kinds. -/
abbrev FS := List (String × FType)

/-- Path lookup in the model filesystem. -/
def fsGet : FS → String → Option FType
  | [], _ => none
  | (q, t) :: rest, p => if q = p then some t else fsGet rest p

/-- Mount flags appearing in mkbox.c. -/
inductive MFlag
  | ms_rec
  | ms_private
  | ms_bind
  | ms_nosuid
  | ms_noexec
  | ms_noatime
  | ms_nodev
  | ms_rdonly
  | ms_remount
deriving DecidableEq, Repr

/-- Observable system calls issued by mkbox.c.  `lstatc` records the probe's
answer (`found`) inside the event because the program branches on it without
treating "absent" as an error; all other events carry their success/failure
as the `Bool` paired with them in the trace. -/
inductive Event
  | prctl_pdeathsig
  | unshare_ns
  | setdomain (s : String)
  | sethost (s : String)
  | mount (src dst : String) (fstype : Option String) (flags : List MFlag) (data : Option String)
  | chdir (p : String)
  | statc (p : String)
  | lstatc (p : String) (found : Bool)
  | mkdirc (p : String)
  | openw (p : String)
  | openProc (p : String)
  | wr (p : String) (content : String)
  | closec
  | setresuid (r e s : Int)
  | setresgid (r e s : Int)
  | pivot (newRoot putOld : String)
  | chrootc (p : String)
  | umountDetach (p : String)
  | rmdirc (p : String)
  | dropcaps
  | execv (b : String)
deriving DecidableEq, Repr

/-- The tmpfs mount data string of mkbox.c line 195. -/
def tmpfsData : String := "size=16m,nr_inodes=16k,mode=755"

/-- The unchecked `mount("none", "/", NULL, MS_REC|MS_PRIVATE, NULL)` of
mkbox.c line 121. -/
def rprivateEv : Event :=
  .mount "none" "/" none [.ms_rec, .ms_private] none

/-- The final read-only remount of "/" of mkbox.c lines 287-289. -/
def remountEv : Event :=
  .mount "/" "/" none
    [.ms_remount, .ms_bind, .ms_noexec, .ms_nosuid, .ms_nodev, .ms_rdonly] none

/-- Interpreter state: the identifiers read at `main` entry (`getuid`,
`getgid`), the model filesystem, the oracle with its call counter, the trace
accumulated so far, and the option-loop variables of `main`. -/
structure St where
  uid : Int
  gid : Int
  fs : FS
  oracle : Nat → Bool
  clock : Nat
  trace : List (Event × Bool)
  rootSet : Bool
  childDir : Option String
  binary : Option String
  verbose : Bool

/-- A fatal `exit(-1)` carries the trace accumulated up to it. -/
abbrev Fail := List (Event × Bool)

/-- How a run of mkbox ends. -/
inductive Outcome
  | exited
  | execed (b : String)
deriving DecidableEq, Repr

/-- A finished run: full trace plus outcome. -/
structure Run where
  trace : List (Event × Bool)
  outcome : Outcome
deriving DecidableEq, Repr

/-- Bail out of the bootstrap (`errorf` / `checkreturn` failure). -/
def die {α : Type} (st : St) : Except Fail α := .error st.trace

/-- An `ok(...)`-wrapped call: issue the event, consume one oracle answer,
and `exit(-1)` when the answer is failure (mkbox.c `checkreturn`). -/
def okCall (st : St) (e : Event) : Except Fail St :=
  let r := st.oracle st.clock
  let st1 : St := { st with clock := st.clock + 1, trace := st.trace ++ [(e, r)] }
  if r then .ok st1 else .error st1.trace

/-- An unchecked call: issue the event, consume one oracle answer, and hand
the answer back to the program (used for the line-121 rprivate mount, whose
answer is discarded, and the line-232 open of /proc/self/setgroups, whose
answer is branched on). -/
def rawCall (st : St) (e : Event) : Bool × St :=
  let r := st.oracle st.clock
  (r, { st with clock := st.clock + 1, trace := st.trace ++ [(e, r)] })

/-- The component boundaries visited by the loop of `recursive_mkdir`
(mkbox.c lines 67-86): every index `i ≥ 1` of `dir` holding a slash, and the
length of `dir` (where `strchrnul` stops), in increasing order. -/
def slashIdx (s : List Char) : List Nat :=
  (List.range (s.length + 1)).filter
    (fun i => decide (1 ≤ i) && (decide (i = s.length) || (s.getD i ' ' == '/')))

/-- The loop body of `recursive_mkdir`: for each prefix of `dir` ending at
the next boundary, skip it when `lstat` finds a directory, otherwise
`mkdir` it — fatally when the path exists as a non-directory (`mkdir`
then fails with EEXIST). -/
def rmkGo (dir : List Char) : List Nat → St → Except Fail St
  | [], st => .ok st
  | i :: rest, st =>
    let path : String := ⟨dir.take i⟩
    match fsGet st.fs path with
    | some .dir =>
        rmkGo dir rest { st with trace := st.trace ++ [(.lstatc path true, true)] }
    | some .file =>
        .error (st.trace ++ [(.lstatc path true, true), (.mkdirc path, false)])
    | none =>
        rmkGo dir rest
          { st with
            fs := (path, .dir) :: st.fs,
            trace := st.trace ++ [(.lstatc path false, true), (.mkdirc path, true)] }

/-- `recursive_mkdir(dir, 0755)` of mkbox.c lines 67-86. -/
def recMkdir (dir : String) (st : St) : Except Fail St :=
  rmkGo dir.data (slashIdx dir.data) st

/-- `strchr(optarg, '=')` split of a `-b` argument: the text before the
first '=' and the text after it, or `none` when there is no '='. -/
def splitEq : List Char → Option (List Char × List Char)
  | [] => none
  | c :: cs =>
      if c = '=' then some ([], cs)
      else match splitEq cs with
           | none => none
           | some (a, b) => some (c :: a, b)

/-- Spec-side syntactic condition: the `-b` argument has no '=' at all
(`strchr` returns NULL). -/
def lacksEq (s : List Char) : Bool := !(s.contains '=')

/-- Spec-side reading of "the character immediately following the first
'='" of a `-b` argument. -/
def charAfterFirstEq : List Char → Option Char
  | [] => none
  | c :: rest => if c = '=' then rest.head? else charAfterFirstEq rest

/-- Digit-prefix value for `sscanf(optarg, "%d", ...)`. -/
def scanNat (s : List Char) : Option Nat :=
  let ds := s.takeWhile Char.isDigit
  if ds.isEmpty then none
  else some (ds.foldl (fun a c => a * 10 + (c.toNat - 48)) 0)

/-- `sscanf(optarg, "%d", &x)`: skip whitespace, optional sign, then a
nonempty digit run; `none` when no integer can be read. -/
def scanInt (s : List Char) : Option Int :=
  match s.dropWhile (fun c => c = ' ' || c = '\t' || c = '\n') with
  | '-' :: rest => (scanNat rest).map (fun n => -(n : Int))
  | '+' :: rest => (scanNat rest).map (fun n => (n : Int))
  | rest => (scanNat rest).map (fun n => (n : Int))

/-- The single id-map line `sprintf(buf, "%d %d 1\n", inner, outer)`. -/
def idLine (inner outer : Int) : String :=
  toString inner ++ " " ++ toString outer ++ " 1\n"

/-- The structured option list produced by the `getopt` loop (command-line
tokenization itself is libc's; `r` and `Z` are accepted by the option string
`"+b:B:d:D:g:qr:s:t:u:Z"` but have no case, so they fall to `default:`
`errorf`). -/
inductive Opt
  | q
  | s (arg : String)
  | bigB (arg : String)
  | b (arg : String)
  | t (arg : String)
  | u (arg : String)
  | g (arg : String)
  | d (arg : String)
  | bigD (arg : String)
  | r (arg : String)
  | bigZ
deriving DecidableEq, Repr

/-- Whether an option is `-s`. -/
def Opt.isS : Opt → Bool
  | .s _ => true
  | _ => false

/-- One iteration of the `getopt` switch of `main` (mkbox.c lines 111-269).
In the `-s` case the result of the line-121 rprivate mount is discarded
(only `.2` of `rawCall` is used); every other environment call is
`ok(...)`-checked except the line-232 open of /proc/self/setgroups, whose
result selects the `if` branch.  In the `-b` case `dst[1] == '/'` is the
head of the text after the first '='. -/
def doOpt (st : St) : Opt → Except Fail St
  | .q => .ok { st with verbose := false }
  | .s arg =>
      okCall (rawCall st rprivateEv).2
        (.mount arg arg none [.ms_bind, .ms_nosuid] none) >>= fun st2 =>
      okCall st2 (.chdir arg) >>= fun st3 =>
      .ok { st3 with rootSet := true }
  | .bigB arg => .ok { st with binary := some arg }
  | .b arg =>
      match splitEq arg.data with
      | none => die st
      | some (srcCs, dstCs) =>
        if dstCs.head? = some '/' then die st
        else
          match fsGet st.fs ⟨srcCs⟩ with
          | none => .error (st.trace ++ [(.statc ⟨srcCs⟩, false)])
          | some .dir =>
              (match fsGet st.fs ⟨dstCs⟩ with
                | some k =>
                    Except.ok { st with trace := st.trace ++
                      [(.statc ⟨srcCs⟩, true), (.lstatc ⟨dstCs⟩ true, true)] }
                | none =>
                    recMkdir ⟨dstCs⟩
                      { st with trace := st.trace ++
                        [(.statc ⟨srcCs⟩, true), (.lstatc ⟨dstCs⟩ false, true)] }) >>=
              fun st2 =>
                okCall st2 (.mount ⟨srcCs⟩ ⟨dstCs⟩ none [.ms_rec, .ms_bind] none)
          | some .file =>
              match fsGet st.fs ⟨dstCs⟩ with
              | some FType.dir =>
                  .error (st.trace ++ [(.statc ⟨srcCs⟩, true), (.openw ⟨dstCs⟩, false)])
              | some FType.file =>
                  okCall { st with trace := st.trace ++
                      [(.statc ⟨srcCs⟩, true), (.openw ⟨dstCs⟩, true)] } .closec >>=
                  fun st3 => okCall st3 (.mount ⟨srcCs⟩ ⟨dstCs⟩ none [.ms_bind] none)
              | none =>
                  okCall { st with
                      fs := (⟨dstCs⟩, FType.file) :: st.fs,
                      trace := st.trace ++
                        [(.statc ⟨srcCs⟩, true), (.openw ⟨dstCs⟩, true)] } .closec >>=
                  fun st3 => okCall st3 (.mount ⟨srcCs⟩ ⟨dstCs⟩ none [.ms_bind] none)
  | .t arg =>
      (match fsGet st.fs arg with
        | some k => Except.ok { st with trace := st.trace ++ [(.lstatc arg true, true)] }
        | none =>
            recMkdir arg { st with trace := st.trace ++ [(.lstatc arg false, true)] }) >>=
      fun st2 =>
        okCall st2 (.mount "sandbox-tmp" arg (some "tmpfs")
          [.ms_nosuid, .ms_noexec, .ms_noatime] (some tmpfsData))
  | .u arg =>
      match scanInt arg.data with
      | none => die st
      | some newuid =>
          okCall st (.openProc "/proc/self/uid_map") >>= fun st1 =>
          okCall st1 (.wr "/proc/self/uid_map" (idLine newuid st.uid)) >>= fun st2 =>
          okCall st2 .closec >>= fun st3 =>
          okCall st3 (.setresuid newuid newuid newuid)
  | .g arg =>
      (if (rawCall st (.openProc "/proc/self/setgroups")).1 then
          okCall (rawCall st (.openProc "/proc/self/setgroups")).2
            (.wr "/proc/self/setgroups" "deny") >>= fun sta =>
          okCall sta .closec
        else .ok (rawCall st (.openProc "/proc/self/setgroups")).2) >>= fun st2 =>
      match scanInt arg.data with
      | none => die st2
      | some newgid =>
          okCall st2 (.openProc "/proc/self/gid_map") >>= fun st3 =>
          okCall st3 (.wr "/proc/self/gid_map" (idLine newgid st.gid)) >>= fun st4 =>
          okCall st4 .closec >>= fun st5 =>
          okCall st5 (.setresgid newgid newgid newgid)
  | .d arg => .ok { st with childDir := some arg }
  | .bigD arg => recMkdir arg st
  | .r arg => die st
  | .bigZ => die st

/-- The whole `getopt` loop, in argument order. -/
def doOpts : List Opt → St → Except Fail St
  | [], st => .ok st
  | o :: os, st => do doOpts os (← doOpt st o)

/-- The tail of `main` (mkbox.c lines 295-299): drop capabilities and
`execv` the explicit `-B` binary, else `argv[optind]`; with no positional
argument left, `execv(NULL, ...)` fails and `checkreturn` exits. -/
def handoff (positional : List String) (st : St) : Except Fail (St × String) :=
  okCall st .dropcaps >>= fun st =>
  match st.binary with
  | some b => okCall st (.execv b) >>= fun st => pure (st, b)
  | none =>
      match positional with
      | b :: _ => okCall st (.execv b) >>= fun st => pure (st, b)
      | [] => die st

/-- The body of `main` (mkbox.c lines 89-300) as an `Except` computation:
prologue, option loop, mandatory-root check, root transition, and handoff.
On success it returns the final state together with the binary handed to
`execv`. -/
def mainE (opts : List Opt) (positional : List String) (st : St) :
    Except Fail (St × String) :=
  okCall st .prctl_pdeathsig >>= fun st =>
  okCall st .unshare_ns >>= fun st =>
  okCall st (.setdomain "localdomain") >>= fun st =>
  okCall st (.sethost "localhost") >>= fun st =>
  doOpts opts st >>= fun st =>
  (if st.rootSet then pure st else die st) >>= fun st =>
  okCall st (.mkdirc ".oldroot") >>= fun st =>
  okCall st (.pivot "." ".oldroot") >>= fun st =>
  okCall st (.chrootc ".") >>= fun st =>
  okCall st (.umountDetach ".oldroot") >>= fun st =>
  okCall st (.rmdirc ".oldroot") >>= fun st =>
  okCall st remountEv >>= fun st =>
  (match st.childDir with
    | some d => okCall st (.chdir d)
    | none => pure st) >>= fun st =>
  handoff positional st

/-- The state at `main` entry: `uid = getuid()`, `gid = getgid()`, empty
trace, no options processed yet. -/
def initSt (uid gid : Int) (oracle : Nat → Bool) (fs0 : FS) : St :=
  { uid := uid, gid := gid, fs := fs0, oracle := oracle, clock := 0,
    trace := [], rootSet := false, childDir := none, binary := none,
    verbose := true }

/-- A complete run of mkbox: `uid`/`gid` are the host identities read at
entry, `oracle` answers the environment-determined calls in order, `fs0` is
the model filesystem, `opts` the structured option list and `positional`
the argument vector tail. -/
def runMkbox (uid gid : Int) (oracle : Nat → Bool) (fs0 : FS)
    (opts : List Opt) (positional : List String) : Run :=
  match mainE opts positional (initSt uid gid oracle fs0) with
  | .error tr => ⟨tr, .exited⟩
  | .ok (st, b) => ⟨st.trace, .execed b⟩

/-- Trace of a possibly-failed computation step. -/
def resTrace : Except Fail St → Fail
  | .ok st => st.trace
  | .error tr => tr

/-- Trace of the whole `mainE` computation. -/
def resTrace2 : Except Fail (St × String) → Fail
  | .ok (st, _) => st.trace
  | .error tr => tr

/-- Whether an event is a tmpfs mount. -/
def isTmpfs : Event → Bool
  | .mount _ _ (some ft) _ _ => ft == "tmpfs"
  | _ => false

/-- Flags of a mount event (else `[]`). -/
def mountFlags : Event → List MFlag
  | .mount _ _ _ fl _ => fl
  | _ => []

/-- Data string of a mount event (else `none`). -/
def mountData : Event → Option String
  | .mount _ _ _ _ dt => dt
  | _ => none

/-- Source of a mount event (else `""`). -/
def mountSrc : Event → String
  | .mount s _ _ _ _ => s
  | _ => ""

/-- Whether an event is any mount call. -/
def isMount : Event → Bool
  | .mount _ _ _ _ _ => true
  | _ => false

/-- Whether an event is a mkdir call. -/
def isMkdirEv : Event → Bool
  | .mkdirc _ => true
  | _ => false

/-- Shape invariant of every event mkbox can emit: a tmpfs mount always has
the fixed source, the fixed three flags and the fixed data string of
mkbox.c lines 193-195. -/
def goodEv (e : Event) : Prop :=
  isTmpfs e = true →
    mountSrc e = "sandbox-tmp" ∧
    mountFlags e = [.ms_nosuid, .ms_noexec, .ms_noatime] ∧
    mountData e = some tmpfsData

/-- The two calls whose failure the program survives: the unchecked
rprivate mount of line 121 and the open of /proc/self/setgroups of
line 232. -/
def tolerated (e : Event) : Prop :=
  e = rprivateEv ∨ e = .openProc "/proc/self/setgroups"

/-- Composable specification of a bootstrap fragment run from `st`: the
result's trace extends `st.trace` by events satisfying the shape invariant,
and on a successful continuation the extension contains only tolerated
failures and `rootSet` is unchanged unless `b` (set while processing `-s`). -/
def SpecFrom (st : St) (b : Bool) (x : Except Fail St) : Prop :=
  ∃ delta, resTrace x = st.trace ++ delta ∧
    (∀ er ∈ delta, goodEv er.1) ∧
    (∀ st', x = .ok st' →
      st'.trace = st.trace ++ delta ∧
      (st'.rootSet = st.rootSet ∨ b = true) ∧
      (∀ er ∈ delta, er.2 = false → tolerated er.1))

/-- Spec of the whole `main` computation. -/
def Spec2From (st : St) (x : Except Fail (St × String)) : Prop :=
  ∃ delta, resTrace2 x = st.trace ++ delta ∧
    (∀ er ∈ delta, goodEv er.1) ∧
    (∀ st' bin, x = .ok (st', bin) →
      st'.trace = st.trace ++ delta ∧
      (∀ er ∈ delta, er.2 = false → tolerated er.1))

/-- A previously-used sandbox root for the C8 witness: the bind source,
its already-created file target and an already-created tmp mount point. -/
def rerunFS : FS :=
  [("/etc/hosts", FType.file), ("etc/hosts", FType.file), ("tmp", FType.dir)]

/-- Entry state over `rerunFS` with every environment call succeeding. -/
def rerunSt : St := initSt 0 0 (fun _ => true) rerunFS

/-- The continuation state of one concrete successful `-g 0` processing
(real gid 6, all environment calls succeeding). -/
def gWitnessSt : St :=
  match doOpt (initSt 0 6 (fun _ => true) []) (.g "0") with
  | .ok s => s
  | .error _ => initSt 0 6 (fun _ => true) []

theorem goodEv_of_not_tmpfs {e : Event} (h : isTmpfs e = false) : goodEv e := by
  intro ht; rw [h] at ht; cases ht

@[simp] theorem bind_err {α β : Type} (tr : Fail) (f : α → Except Fail β) :
    (Except.error tr >>= f) = .error tr := rfl

@[simp] theorem bind_okk {α β : Type} (a : α) (f : α → Except Fail β) :
    (Except.ok a >>= f) = f a := rfl

/-- The two possible results of an `ok(...)`-wrapped call. -/
theorem okCall_eq (st : St) (e : Event) :
    (st.oracle st.clock = true ∧
      okCall st e =
        .ok { st with clock := st.clock + 1, trace := st.trace ++ [(e, true)] }) ∨
    (st.oracle st.clock = false ∧
      okCall st e = .error (st.trace ++ [(e, false)])) := by
  cases h : st.oracle st.clock
  · right; exact ⟨rfl, by simp [okCall, h]⟩
  · left; exact ⟨rfl, by simp [okCall, h]⟩

theorem okCall_ok {st : St} {e : Event} {st' : St} (h : okCall st e = .ok st') :
    st.oracle st.clock = true ∧
    st' = { st with clock := st.clock + 1, trace := st.trace ++ [(e, true)] } := by
  rcases okCall_eq st e with ⟨ho, he⟩ | ⟨ho, he⟩
  · rw [he] at h; injection h with h; exact ⟨ho, h.symm⟩
  · rw [he] at h; exact Except.noConfusion h

theorem okCall_err {st : St} {e : Event} {tr : Fail} (h : okCall st e = .error tr) :
    st.oracle st.clock = false ∧ tr = st.trace ++ [(e, false)] := by
  rcases okCall_eq st e with ⟨ho, he⟩ | ⟨ho, he⟩
  · rw [he] at h; exact Except.noConfusion h
  · rw [he] at h; injection h with h; exact ⟨ho, h.symm⟩

theorem bindE_ok {α β : Type} {x : Except Fail α} {f : α → Except Fail β} {b : β}
    (h : x >>= f = .ok b) : ∃ a, x = .ok a ∧ f a = .ok b := by
  cases x with
  | error e => exact Except.noConfusion h
  | ok a => exact ⟨a, rfl, h⟩

theorem mem_single {α : Type} {x a : α} (h : x ∈ [a]) : x = a :=
  List.mem_singleton.mp h

theorem mem_pair {α : Type} {x a b : α} (h : x ∈ [a, b]) : x = a ∨ x = b := by
  rcases List.mem_cons.mp h with h | h
  · exact .inl h
  · exact .inr (List.mem_singleton.mp h)

theorem mem_triple {α : Type} {x a b c : α} (h : x ∈ [a, b, c]) :
    x = a ∨ x = b ∨ x = c := by
  rcases List.mem_cons.mp h with h | h
  · exact .inl h
  · exact .inr (mem_pair h)

theorem mem_quad {α : Type} {x a b c d : α} (h : x ∈ [a, b, c, d]) :
    x = a ∨ x = b ∨ x = c ∨ x = d := by
  rcases List.mem_cons.mp h with h | h
  · exact .inl h
  · exact .inr (mem_triple h)

/-- Everything `recursive_mkdir` does: it only appends lstat probes and
mkdir calls to the trace, touches nothing else of the option-loop state,
and on success every appended call succeeded. -/
theorem rmkGo_spec (dir : List Char) (idx : List Nat) (st : St) :
    ∃ delta, resTrace (rmkGo dir idx st) = st.trace ++ delta ∧
      (∀ er ∈ delta, goodEv er.1 ∧ isMount er.1 = false) ∧
      (∀ st', rmkGo dir idx st = .ok st' →
        st'.trace = st.trace ++ delta ∧
        st'.rootSet = st.rootSet ∧ st'.oracle = st.oracle ∧
        st'.clock = st.clock ∧ st'.uid = st.uid ∧ st'.gid = st.gid ∧
        st'.childDir = st.childDir ∧ st'.binary = st.binary ∧
        (∀ er ∈ delta, er.2 = true)) := by
  induction idx generalizing st with
  | nil =>
      refine ⟨[], by simp [rmkGo, resTrace], by simp, fun st' h => ?_⟩
      injection h with h; subst h; simp [rmkGo]
  | cons i rest ih =>
      cases hf : fsGet st.fs ⟨dir.take i⟩ with
      | none =>
          obtain ⟨delta, h1, h2, h3⟩ :=
            ih { st with
                  fs := (⟨dir.take i⟩, FType.dir) :: st.fs,
                  trace := st.trace ++
                    [(.lstatc ⟨dir.take i⟩ false, true), (.mkdirc ⟨dir.take i⟩, true)] }
          refine ⟨[(.lstatc ⟨dir.take i⟩ false, true), (.mkdirc ⟨dir.take i⟩, true)] ++ delta,
            ?_, ?_, ?_⟩
          · rw [show rmkGo dir (i :: rest) st =
                rmkGo dir rest
                  { st with
                    fs := (⟨dir.take i⟩, FType.dir) :: st.fs,
                    trace := st.trace ++
                      [(.lstatc ⟨dir.take i⟩ false, true), (.mkdirc ⟨dir.take i⟩, true)] }
                from by simp [rmkGo, hf]]
            rw [h1]; simp
          · intro er her
            rcases List.mem_append.mp her with h | h
            · rcases mem_pair h with rfl | rfl
              · exact ⟨goodEv_of_not_tmpfs rfl, rfl⟩
              · exact ⟨goodEv_of_not_tmpfs rfl, rfl⟩
            · exact h2 er h
          · intro st' h'
            rw [show rmkGo dir (i :: rest) st =
                rmkGo dir rest
                  { st with
                    fs := (⟨dir.take i⟩, FType.dir) :: st.fs,
                    trace := st.trace ++
                      [(.lstatc ⟨dir.take i⟩ false, true), (.mkdirc ⟨dir.take i⟩, true)] }
                from by simp [rmkGo, hf]] at h'
            obtain ⟨g1, g2, g3, g4, g5, g6, g7, g8, g9⟩ := h3 st' h'
            refine ⟨by rw [g1]; simp, g2, g3, g4, g5, g6, g7, g8, ?_⟩
            intro er her
            rcases List.mem_append.mp her with h | h
            · rcases mem_pair h with rfl | rfl
              · rfl
              · rfl
            · exact g9 er h
      | some k =>
          cases k with
          | dir =>
              obtain ⟨delta, h1, h2, h3⟩ :=
                ih { st with trace := st.trace ++ [(.lstatc ⟨dir.take i⟩ true, true)] }
              refine ⟨[(.lstatc ⟨dir.take i⟩ true, true)] ++ delta, ?_, ?_, ?_⟩
              · rw [show rmkGo dir (i :: rest) st =
                    rmkGo dir rest
                      { st with trace := st.trace ++ [(.lstatc ⟨dir.take i⟩ true, true)] }
                    from by simp [rmkGo, hf]]
                rw [h1]; simp
              · intro er her
                rcases List.mem_append.mp her with h | h
                · rcases mem_single h with rfl
                  exact ⟨goodEv_of_not_tmpfs rfl, rfl⟩
                · exact h2 er h
              · intro st' h'
                rw [show rmkGo dir (i :: rest) st =
                    rmkGo dir rest
                      { st with trace := st.trace ++ [(.lstatc ⟨dir.take i⟩ true, true)] }
                    from by simp [rmkGo, hf]] at h'
                obtain ⟨g1, g2, g3, g4, g5, g6, g7, g8, g9⟩ := h3 st' h'
                refine ⟨by rw [g1]; simp, g2, g3, g4, g5, g6, g7, g8, ?_⟩
                intro er her
                rcases List.mem_append.mp her with h | h
                · rcases mem_single h with rfl
                  rfl
                · exact g9 er h
          | file =>
              refine ⟨[(.lstatc ⟨dir.take i⟩ true, true), (.mkdirc ⟨dir.take i⟩, false)],
                ?_, ?_, ?_⟩
              · rw [show rmkGo dir (i :: rest) st =
                    Except.error (st.trace ++
                      [(.lstatc ⟨dir.take i⟩ true, true), (.mkdirc ⟨dir.take i⟩, false)])
                    from by simp [rmkGo, hf]]
                rfl
              · intro er her
                rcases mem_pair her with rfl | rfl
                · exact ⟨goodEv_of_not_tmpfs rfl, rfl⟩
                · exact ⟨goodEv_of_not_tmpfs rfl, rfl⟩
              · intro st' h'
                rw [show rmkGo dir (i :: rest) st =
                    Except.error (st.trace ++
                      [(.lstatc ⟨dir.take i⟩ true, true), (.mkdirc ⟨dir.take i⟩, false)])
                    from by simp [rmkGo, hf]] at h'
                exact Except.noConfusion h'

/-- `recursive_mkdir` restated over its string argument. -/
theorem recMkdir_spec (d : String) (st : St) :
    ∃ delta, resTrace (recMkdir d st) = st.trace ++ delta ∧
      (∀ er ∈ delta, goodEv er.1 ∧ isMount er.1 = false) ∧
      (∀ st', recMkdir d st = .ok st' →
        st'.trace = st.trace ++ delta ∧
        st'.rootSet = st.rootSet ∧ st'.oracle = st.oracle ∧
        st'.clock = st.clock ∧ st'.uid = st.uid ∧ st'.gid = st.gid ∧
        st'.childDir = st.childDir ∧ st'.binary = st.binary ∧
        (∀ er ∈ delta, er.2 = true)) :=
  rmkGo_spec d.data (slashIdx d.data) st

theorem specFrom_update (st : St) (b : Bool) (st1 : St)
    (htr : st1.trace = st.trace) (hrs : st1.rootSet = st.rootSet) :
    SpecFrom st b (.ok st1) := by
  refine ⟨[], by simp [resTrace, htr], by simp, fun st' h => ?_⟩
  injection h with h; subst h
  exact ⟨by simp [htr], .inl hrs, by simp⟩

theorem specFrom_setRoot (st : St) (st1 : St) (htr : st1.trace = st.trace) :
    SpecFrom st true (.ok st1) := by
  refine ⟨[], by simp [resTrace, htr], by simp, fun st' h => ?_⟩
  injection h with h; subst h
  exact ⟨by simp [htr], .inr rfl, by simp⟩

theorem specFrom_die (st : St) (b : Bool) : SpecFrom st b (die st) := by
  refine ⟨[], by simp [die, resTrace], by simp, fun st' h => Except.noConfusion h⟩

theorem specFrom_err (st : St) (b : Bool) (delta : Fail)
    (hg : ∀ er ∈ delta, goodEv er.1) :
    SpecFrom st b (.error (st.trace ++ delta)) := by
  exact ⟨delta, by simp [resTrace], hg, fun st' h => Except.noConfusion h⟩

theorem specFrom_shift {st : St} {t : St} {b : Bool} {x : Except Fail St} (delta0 : Fail)
    (htr : t.trace = st.trace ++ delta0)
    (hg : ∀ er ∈ delta0, goodEv er.1)
    (htol : ∀ er ∈ delta0, er.2 = false → tolerated er.1)
    (hrs : t.rootSet = st.rootSet ∨ b = true)
    (hx : SpecFrom t b x) : SpecFrom st b x := by
  obtain ⟨d, h1, h2, h3⟩ := hx
  refine ⟨delta0 ++ d, by rw [h1, htr, List.append_assoc], ?_, ?_⟩
  · intro er her; rcases List.mem_append.mp her with h | h
    · exact hg er h
    · exact h2 er h
  · intro st' hok
    obtain ⟨g1, g2, g3⟩ := h3 st' hok
    refine ⟨by rw [g1, htr, List.append_assoc], ?_, ?_⟩
    · rcases g2 with g2 | g2
      · rcases hrs with hrs | hrs
        · exact .inl (g2.trans hrs)
        · exact .inr hrs
      · exact .inr g2
    · intro er her hf; rcases List.mem_append.mp her with h | h
      · exact htol er h hf
      · exact g3 er h hf

theorem specFrom_okCall (st : St) (b : Bool) (e : Event) (hg : goodEv e) :
    SpecFrom st b (okCall st e) := by
  rcases okCall_eq st e with ⟨ho, he⟩ | ⟨ho, he⟩
  · rw [he]
    refine ⟨[(e, true)], by simp [resTrace], ?_, fun st' h => ?_⟩
    · intro er her; rcases mem_single her with rfl; exact hg
    · injection h with h; subst h
      refine ⟨by simp, .inl rfl, ?_⟩
      intro er her hf; rcases mem_single her with rfl; exact Bool.noConfusion hf
  · rw [he]
    refine ⟨[(e, false)], by simp [resTrace], ?_, fun st' h => Except.noConfusion h⟩
    intro er her; rcases mem_single her with rfl; exact hg

theorem specFrom_bind {st : St} {b : Bool} {x : Except Fail St}
    {f : St → Except Fail St}
    (hx : SpecFrom st b x)
    (hf : ∀ st1, x = .ok st1 → SpecFrom st1 b (f st1)) :
    SpecFrom st b (x >>= f) := by
  cases x with
  | error tr =>
      obtain ⟨d, h1, h2, h3⟩ := hx
      exact ⟨d, by simpa [resTrace] using h1, h2, fun st' h => by simp at h⟩
  | ok st1 =>
      obtain ⟨d, h1, h2, h3⟩ := hx
      obtain ⟨g1, g2, g3⟩ := h3 st1 rfl
      rw [show (Except.ok st1 >>= f) = f st1 from rfl]
      exact specFrom_shift d g1 h2 g3 g2 (hf st1 rfl)

theorem specFrom_recMkdir (st : St) (b : Bool) (d : String) :
    SpecFrom st b (recMkdir d st) := by
  obtain ⟨delta, h1, h2, h3⟩ := recMkdir_spec d st
  refine ⟨delta, h1, fun er her => (h2 er her).1, fun st' h => ?_⟩
  obtain ⟨g1, g2, _, _, _, _, _, _, g9⟩ := h3 st' h
  refine ⟨g1, .inl g2, fun er her hf => ?_⟩
  rw [g9 er her] at hf; exact Bool.noConfusion hf

/-- Master lemma: every option case satisfies the composable spec. -/
theorem doOpt_spec (st : St) (o : Opt) : SpecFrom st o.isS (doOpt st o) := by
  cases o with
  | q => exact specFrom_update st _ _ rfl rfl
  | bigB arg => exact specFrom_update st _ _ rfl rfl
  | d arg => exact specFrom_update st _ _ rfl rfl
  | r arg => exact specFrom_die st _
  | bigZ => exact specFrom_die st _
  | bigD arg => exact specFrom_recMkdir st _ arg
  | s arg =>
      show SpecFrom st true
        (okCall (rawCall st rprivateEv).2
            (.mount arg arg none [.ms_bind, .ms_nosuid] none) >>= fun st2 =>
          okCall st2 (.chdir arg) >>= fun st3 =>
          Except.ok { st3 with rootSet := true })
      refine specFrom_shift (t := (rawCall st rprivateEv).2)
        [(rprivateEv, st.oracle st.clock)] (by simp [rawCall]) ?_ ?_ (.inr rfl) ?_
      · intro er her; rcases mem_single her with rfl
        exact goodEv_of_not_tmpfs rfl
      · intro er her hf; rcases mem_single her with rfl; exact .inl rfl
      · refine specFrom_bind (specFrom_okCall _ _ _ (goodEv_of_not_tmpfs rfl)) ?_
        intro st2 h2
        refine specFrom_bind (specFrom_okCall _ _ _ (goodEv_of_not_tmpfs rfl)) ?_
        intro st3 h3
        exact specFrom_setRoot st3 _ rfl
  | u arg =>
      show SpecFrom st false (doOpt st (.u arg))
      cases hsc : scanInt arg.data with
      | none =>
          rw [show doOpt st (.u arg) = die st from by simp [doOpt, hsc]]
          exact specFrom_die st false
      | some newuid =>
          rw [show doOpt st (.u arg) =
              (okCall st (.openProc "/proc/self/uid_map") >>= fun st1 =>
                okCall st1 (.wr "/proc/self/uid_map" (idLine newuid st.uid)) >>= fun st2 =>
                okCall st2 .closec >>= fun st3 =>
                okCall st3 (.setresuid newuid newuid newuid)) from by
            simp [doOpt, hsc]]
          refine specFrom_bind (specFrom_okCall _ _ _ (goodEv_of_not_tmpfs rfl)) ?_
          intro st1 h1
          refine specFrom_bind (specFrom_okCall _ _ _ (goodEv_of_not_tmpfs rfl)) ?_
          intro st2 h2
          refine specFrom_bind (specFrom_okCall _ _ _ (goodEv_of_not_tmpfs rfl)) ?_
          intro st3 h3
          exact specFrom_okCall _ _ _ (goodEv_of_not_tmpfs rfl)
  | g arg =>
      show SpecFrom st false (doOpt st (.g arg))
      rw [show doOpt st (.g arg) =
          ((if (rawCall st (.openProc "/proc/self/setgroups")).1 then
              okCall (rawCall st (.openProc "/proc/self/setgroups")).2
                (.wr "/proc/self/setgroups" "deny") >>= fun sta =>
              okCall sta .closec
            else .ok (rawCall st (.openProc "/proc/self/setgroups")).2) >>= fun st2 =>
            match scanInt arg.data with
            | none => die st2
            | some newgid =>
                okCall st2 (.openProc "/proc/self/gid_map") >>= fun st3 =>
                okCall st3 (.wr "/proc/self/gid_map" (idLine newgid st.gid)) >>= fun st4 =>
                okCall st4 .closec >>= fun st5 =>
                okCall st5 (.setresgid newgid newgid newgid)) from rfl]
      have hshift :
          ((rawCall st (.openProc "/proc/self/setgroups")).2).trace =
            st.trace ++ [(.openProc "/proc/self/setgroups", st.oracle st.clock)] := by
        simp [rawCall]
      refine specFrom_bind ?_ ?_
      · -- the setgroups guard block
        cases hr : (rawCall st (.openProc "/proc/self/setgroups")).1
        · rw [if_neg (by simp [hr])]
          refine specFrom_shift [(.openProc "/proc/self/setgroups", st.oracle st.clock)]
            hshift ?_ ?_ (.inl (by simp [rawCall])) ?_
          · intro er her; rcases mem_single her with rfl
            exact goodEv_of_not_tmpfs rfl
          · intro er her hf; rcases mem_single her with rfl
            exact .inr rfl
          · exact specFrom_update _ _ _ rfl rfl
        · rw [if_pos (by simp [hr])]
          refine specFrom_shift [(.openProc "/proc/self/setgroups", st.oracle st.clock)]
            hshift ?_ ?_ (.inl (by simp [rawCall])) ?_
          · intro er her; rcases mem_single her with rfl
            exact goodEv_of_not_tmpfs rfl
          · intro er her hf; rcases mem_single her with rfl
            exact .inr rfl
          · refine specFrom_bind (specFrom_okCall _ _ _ (goodEv_of_not_tmpfs rfl)) ?_
            intro sta ha
            exact specFrom_okCall _ _ _ (goodEv_of_not_tmpfs rfl)
      · intro st2 h2
        cases hsc : scanInt arg.data with
        | none => exact specFrom_die st2 false
        | some newgid =>
            refine specFrom_bind (specFrom_okCall _ _ _ (goodEv_of_not_tmpfs rfl)) ?_
            intro st3 h3
            refine specFrom_bind (specFrom_okCall _ _ _ (goodEv_of_not_tmpfs rfl)) ?_
            intro st4 h4
            refine specFrom_bind (specFrom_okCall _ _ _ (goodEv_of_not_tmpfs rfl)) ?_
            intro st5 h5
            exact specFrom_okCall _ _ _ (goodEv_of_not_tmpfs rfl)
  | t arg =>
      show SpecFrom st false (doOpt st (.t arg))
      refine specFrom_bind ?_ ?_
      · cases hf : fsGet st.fs arg with
        | some k =>
            refine specFrom_shift
              (t := { st with trace := st.trace ++ [(.lstatc arg true, true)] })
              [(.lstatc arg true, true)] rfl ?_ ?_ (.inl rfl) ?_
            · intro er her; rcases mem_single her with rfl
              exact goodEv_of_not_tmpfs rfl
            · intro er her hf2; rcases mem_single her with rfl
              exact Bool.noConfusion hf2
            · exact specFrom_update _ _ _ rfl rfl
        | none =>
            refine specFrom_shift
              (t := { st with trace := st.trace ++ [(.lstatc arg false, true)] })
              [(.lstatc arg false, true)] rfl ?_ ?_ (.inl rfl) ?_
            · intro er her; rcases mem_single her with rfl
              exact goodEv_of_not_tmpfs rfl
            · intro er her hf2; rcases mem_single her with rfl
              exact Bool.noConfusion hf2
            · exact specFrom_recMkdir _ _ _
      · intro st2 h2
        refine specFrom_okCall _ _ _ ?_
        intro ht; exact ⟨rfl, rfl, rfl⟩
  | b arg =>
      show SpecFrom st false (doOpt st (.b arg))
      cases hsp : splitEq arg.data with
      | none =>
          rw [show doOpt st (.b arg) = die st from by simp [doOpt, hsp]]
          exact specFrom_die st false
      | some p =>
          obtain ⟨srcCs, dstCs⟩ := p
          by_cases hc : dstCs.head? = some '/'
          · rw [show doOpt st (.b arg) = die st from by simp [doOpt, hsp, hc]]
            exact specFrom_die st false
          · cases hsrc : fsGet st.fs ⟨srcCs⟩ with
            | none =>
                rw [show doOpt st (.b arg) =
                    Except.error (st.trace ++ [(.statc ⟨srcCs⟩, false)]) from by
                  simp [doOpt, hsp, hc, hsrc]]
                refine specFrom_err st false _ ?_
                intro er her; rcases mem_single her with rfl
                exact goodEv_of_not_tmpfs rfl
            | some k =>
                cases k with
                | dir =>
                    rw [show doOpt st (.b arg) =
                        ((match fsGet st.fs ⟨dstCs⟩ with
                          | some k => Except.ok { st with trace := st.trace ++
                              [(.statc ⟨srcCs⟩, true), (.lstatc ⟨dstCs⟩ true, true)] }
                          | none => recMkdir ⟨dstCs⟩
                              { st with trace := st.trace ++
                                [(.statc ⟨srcCs⟩, true), (.lstatc ⟨dstCs⟩ false, true)] }) >>=
                          fun st2 => okCall st2
                            (.mount ⟨srcCs⟩ ⟨dstCs⟩ none [.ms_rec, .ms_bind] none)) from by
                      simp [doOpt, hsp, hc, hsrc]]
                    refine specFrom_bind ?_ ?_
                    · cases hdst : fsGet st.fs ⟨dstCs⟩ with
                      | some k2 =>
                          refine specFrom_shift
                            (t := { st with trace := st.trace ++
                              [(.statc ⟨srcCs⟩, true), (.lstatc ⟨dstCs⟩ true, true)] })
                            [(.statc ⟨srcCs⟩, true), (.lstatc ⟨dstCs⟩ true, true)]
                            rfl ?_ ?_ (.inl rfl) ?_
                          · intro er her; rcases mem_pair her with rfl | rfl
                            · exact goodEv_of_not_tmpfs rfl
                            · exact goodEv_of_not_tmpfs rfl
                          · intro er her hf; rcases mem_pair her with rfl | rfl
                            · exact Bool.noConfusion hf
                            · exact Bool.noConfusion hf
                          · exact specFrom_update _ _ _ rfl rfl
                      | none =>
                          refine specFrom_shift
                            (t := { st with trace := st.trace ++
                              [(.statc ⟨srcCs⟩, true), (.lstatc ⟨dstCs⟩ false, true)] })
                            [(.statc ⟨srcCs⟩, true), (.lstatc ⟨dstCs⟩ false, true)]
                            rfl ?_ ?_ (.inl rfl) ?_
                          · intro er her; rcases mem_pair her with rfl | rfl
                            · exact goodEv_of_not_tmpfs rfl
                            · exact goodEv_of_not_tmpfs rfl
                          · intro er her hf; rcases mem_pair her with rfl | rfl
                            · exact Bool.noConfusion hf
                            · exact Bool.noConfusion hf
                          · exact specFrom_recMkdir _ _ _
                    · intro st2 h2
                      exact specFrom_okCall _ _ _ (goodEv_of_not_tmpfs rfl)
                | file =>
                    cases hdst : fsGet st.fs ⟨dstCs⟩ with
                    | some k2 =>
                        cases k2 with
                        | dir =>
                            rw [show doOpt st (.b arg) =
                                Except.error (st.trace ++
                                  [(.statc ⟨srcCs⟩, true), (.openw ⟨dstCs⟩, false)]) from by
                              simp [doOpt, hsp, hc, hsrc, hdst]]
                            refine specFrom_err st false _ ?_
                            intro er her; rcases mem_pair her with rfl | rfl
                            · exact goodEv_of_not_tmpfs rfl
                            · exact goodEv_of_not_tmpfs rfl
                        | file =>
                            rw [show doOpt st (.b arg) =
                                (okCall { st with trace := st.trace ++
                                    [(.statc ⟨srcCs⟩, true), (.openw ⟨dstCs⟩, true)] }
                                  .closec >>=
                                fun st3 => okCall st3
                                  (.mount ⟨srcCs⟩ ⟨dstCs⟩ none [.ms_bind] none)) from by
                              simp [doOpt, hsp, hc, hsrc, hdst]]
                            refine specFrom_shift
                              (t := { st with trace := st.trace ++
                                [(.statc ⟨srcCs⟩, true), (.openw ⟨dstCs⟩, true)] })
                              [(.statc ⟨srcCs⟩, true), (.openw ⟨dstCs⟩, true)]
                              rfl ?_ ?_ (.inl rfl) ?_
                            · intro er her; rcases mem_pair her with rfl | rfl
                              · exact goodEv_of_not_tmpfs rfl
                              · exact goodEv_of_not_tmpfs rfl
                            · intro er her hf; rcases mem_pair her with rfl | rfl
                              · exact Bool.noConfusion hf
                              · exact Bool.noConfusion hf
                            · refine specFrom_bind
                                (specFrom_okCall _ _ _ (goodEv_of_not_tmpfs rfl)) ?_
                              intro st3 h3
                              exact specFrom_okCall _ _ _ (goodEv_of_not_tmpfs rfl)
                    | none =>
                        rw [show doOpt st (.b arg) =
                            (okCall { st with
                                fs := (⟨dstCs⟩, FType.file) :: st.fs,
                                trace := st.trace ++
                                  [(.statc ⟨srcCs⟩, true), (.openw ⟨dstCs⟩, true)] }
                              .closec >>=
                            fun st3 => okCall st3
                              (.mount ⟨srcCs⟩ ⟨dstCs⟩ none [.ms_bind] none)) from by
                          simp [doOpt, hsp, hc, hsrc, hdst]]
                        refine specFrom_shift
                          (t := { st with
                            fs := (⟨dstCs⟩, FType.file) :: st.fs,
                            trace := st.trace ++
                              [(.statc ⟨srcCs⟩, true), (.openw ⟨dstCs⟩, true)] })
                          [(.statc ⟨srcCs⟩, true), (.openw ⟨dstCs⟩, true)]
                          rfl ?_ ?_ (.inl rfl) ?_
                        · intro er her; rcases mem_pair her with rfl | rfl
                          · exact goodEv_of_not_tmpfs rfl
                          · exact goodEv_of_not_tmpfs rfl
                        · intro er her hf; rcases mem_pair her with rfl | rfl
                          · exact Bool.noConfusion hf
                          · exact Bool.noConfusion hf
                        · refine specFrom_bind
                            (specFrom_okCall _ _ _ (goodEv_of_not_tmpfs rfl)) ?_
                          intro st3 h3
                          exact specFrom_okCall _ _ _ (goodEv_of_not_tmpfs rfl)

theorem specFrom_mono {st : St} {b1 b2 : Bool} {x : Except Fail St}
    (hx : SpecFrom st b1 x) (hb : b1 = true → b2 = true) : SpecFrom st b2 x := by
  obtain ⟨d, h1, h2, h3⟩ := hx
  refine ⟨d, h1, h2, fun st' h => ?_⟩
  obtain ⟨g1, g2, g3⟩ := h3 st' h
  refine ⟨g1, ?_, g3⟩
  rcases g2 with g2 | g2
  · exact .inl g2
  · exact .inr (hb g2)

/-- The whole option loop satisfies the composable spec;
`rootSet` can only change when some `-s` occurs in the list. -/
theorem doOpts_spec (opts : List Opt) (st : St) :
    SpecFrom st (opts.any Opt.isS) (doOpts opts st) := by
  induction opts generalizing st with
  | nil => exact specFrom_update st _ _ rfl rfl
  | cons o os ih =>
      show SpecFrom st ((o :: os).any Opt.isS)
        (doOpt st o >>= fun st1 => doOpts os st1)
      refine specFrom_bind ?_ ?_
      · exact specFrom_mono (doOpt_spec st o) (fun h => by simp [List.any_cons, h])
      · intro st1 h1
        exact specFrom_mono (ih st1) (fun h => by simp [List.any_cons, h])

theorem spec2_shift {st st1 : St} {x : Except Fail (St × String)} (delta0 : Fail)
    (htr : st1.trace = st.trace ++ delta0)
    (hg : ∀ er ∈ delta0, goodEv er.1)
    (htol : ∀ er ∈ delta0, er.2 = false → tolerated er.1)
    (hx : Spec2From st1 x) : Spec2From st x := by
  obtain ⟨d, h1, h2, h3⟩ := hx
  refine ⟨delta0 ++ d, by rw [h1, htr, List.append_assoc], ?_, ?_⟩
  · intro er her; rcases List.mem_append.mp her with h | h
    · exact hg er h
    · exact h2 er h
  · intro st' bin hok
    obtain ⟨g1, g3⟩ := h3 st' bin hok
    refine ⟨by rw [g1, htr, List.append_assoc], ?_⟩
    intro er her hf; rcases List.mem_append.mp her with h | h
    · exact htol er h hf
    · exact g3 er h hf

theorem spec2_pure (st : St) (bin : String) : Spec2From st (pure (st, bin)) := by
  refine ⟨[], by simp [resTrace2, pure, Except.pure], by simp, fun st' b h => ?_⟩
  injection h with h
  obtain ⟨h1, h2⟩ := Prod.mk.injEq .. ▸ h
  subst h1
  exact ⟨by simp, by simp⟩

theorem spec2_die (st : St) : Spec2From st (die st) := by
  exact ⟨[], by simp [die, resTrace2], by simp, fun st' b h => Except.noConfusion h⟩

theorem spec2_bind {st : St} {b : Bool} {x : Except Fail St}
    {f : St → Except Fail (St × String)}
    (hx : SpecFrom st b x)
    (hf : ∀ st1, x = .ok st1 → Spec2From st1 (f st1)) :
    Spec2From st (x >>= f) := by
  cases x with
  | error tr =>
      obtain ⟨d, h1, h2, h3⟩ := hx
      exact ⟨d, by simpa [resTrace2, resTrace] using h1, h2,
        fun st' bin h => by simp at h⟩
  | ok st1 =>
      obtain ⟨d, h1, h2, h3⟩ := hx
      obtain ⟨g1, g2, g3⟩ := h3 st1 rfl
      rw [show (Except.ok st1 >>= f) = f st1 from rfl]
      exact spec2_shift d g1 h2 g3 (hf st1 rfl)

/-- The whole `main` satisfies the spec: the trace consists of
shape-correct events, and a run that reaches `execv` has no failed call
besides the tolerated two. -/
theorem mainE_spec (opts : List Opt) (positional : List String) (st : St) :
    Spec2From st (mainE opts positional st) := by
  unfold mainE
  refine spec2_bind (specFrom_okCall _ false _ (goodEv_of_not_tmpfs rfl)) ?_
  intro st h; clear h
  refine spec2_bind (specFrom_okCall _ false _ (goodEv_of_not_tmpfs rfl)) ?_
  intro st h; clear h
  refine spec2_bind (specFrom_okCall _ false _ (goodEv_of_not_tmpfs rfl)) ?_
  intro st h; clear h
  refine spec2_bind (specFrom_okCall _ false _ (goodEv_of_not_tmpfs rfl)) ?_
  intro st h; clear h
  refine spec2_bind (doOpts_spec opts st) ?_
  intro st h; clear h
  refine spec2_bind (b := false) ?_ ?_
  · cases hrs : st.rootSet
    · rw [if_neg (by simp)]
      exact specFrom_die st false
    · rw [if_pos rfl]
      exact specFrom_update st _ _ rfl rfl
  intro st h; clear h
  refine spec2_bind (specFrom_okCall _ false _ (goodEv_of_not_tmpfs rfl)) ?_
  intro st h; clear h
  refine spec2_bind (specFrom_okCall _ false _ (goodEv_of_not_tmpfs rfl)) ?_
  intro st h; clear h
  refine spec2_bind (specFrom_okCall _ false _ (goodEv_of_not_tmpfs rfl)) ?_
  intro st h; clear h
  refine spec2_bind (specFrom_okCall _ false _ (goodEv_of_not_tmpfs rfl)) ?_
  intro st h; clear h
  refine spec2_bind (specFrom_okCall _ false _ (goodEv_of_not_tmpfs rfl)) ?_
  intro st h; clear h
  refine spec2_bind (specFrom_okCall _ false _ (goodEv_of_not_tmpfs rfl)) ?_
  intro st h; clear h
  refine spec2_bind (b := false) ?_ ?_
  · cases hcd : st.childDir with
    | some d => exact specFrom_okCall _ false _ (goodEv_of_not_tmpfs rfl)
    | none => exact specFrom_update st _ _ rfl rfl
  intro st h; clear h
  unfold handoff
  refine spec2_bind (specFrom_okCall _ false _ (goodEv_of_not_tmpfs rfl)) ?_
  intro st h; clear h
  cases hb : st.binary with
  | some b =>
      refine spec2_bind (specFrom_okCall _ false _ (goodEv_of_not_tmpfs rfl)) ?_
      intro st h; clear h
      exact spec2_pure st b
  | none =>
      cases positional with
      | nil => exact spec2_die st
      | cons b rest =>
          refine spec2_bind (specFrom_okCall _ false _ (goodEv_of_not_tmpfs rfl)) ?_
          intro st h; clear h
          exact spec2_pure st b

/-- Every event of every run has the tmpfs shape invariant. -/
theorem runMkbox_good (uid gid : Int) (oracle : Nat → Bool) (fs0 : FS)
    (opts : List Opt) (positional : List String) :
    ∀ er ∈ (runMkbox uid gid oracle fs0 opts positional).trace, goodEv er.1 := by
  obtain ⟨delta, h1, h2, h3⟩ :=
    mainE_spec opts positional (initSt uid gid oracle fs0)
  have htr0 : (initSt uid gid oracle fs0).trace = [] := rfl
  unfold runMkbox
  cases hm : mainE opts positional (initSt uid gid oracle fs0) with
  | error tr =>
      rw [hm] at h1
      simp only [resTrace2] at h1
      rw [htr0] at h1
      simp only [h1, List.nil_append]
      exact h2
  | ok p =>
      obtain ⟨st, b⟩ := p
      obtain ⟨g1, g3⟩ := h3 st b hm
      rw [htr0] at g1
      simp only [g1, List.nil_append]
      exact h2

/-- A run that reaches `execv` (outcome `execed`) has no failed call in its
trace besides possibly the rprivate mount and the setgroups open. -/
theorem runMkbox_execed_failures (uid gid : Int) (oracle : Nat → Bool) (fs0 : FS)
    (opts : List Opt) (positional : List String) (b : String)
    (h : (runMkbox uid gid oracle fs0 opts positional).outcome = .execed b) :
    ∀ er ∈ (runMkbox uid gid oracle fs0 opts positional).trace,
      er.2 = false → tolerated er.1 := by
  obtain ⟨delta, h1, h2, h3⟩ :=
    mainE_spec opts positional (initSt uid gid oracle fs0)
  have htr0 : (initSt uid gid oracle fs0).trace = [] := rfl
  unfold runMkbox at h ⊢
  cases hm : mainE opts positional (initSt uid gid oracle fs0) with
  | error tr =>
      rw [hm] at h
      simp at h
  | ok p =>
      obtain ⟨st, b'⟩ := p
      obtain ⟨g1, g3⟩ := h3 st b' hm
      rw [htr0] at g1
      simp only [g1, List.nil_append]
      exact g3

theorem doOpts_rootSet {opts : List Opt} {st st' : St}
    (h : doOpts opts st = .ok st') (hns : opts.any Opt.isS = false) :
    st'.rootSet = st.rootSet := by
  obtain ⟨d, h1, h2, h3⟩ := doOpts_spec opts st
  obtain ⟨g1, g2, g3⟩ := h3 st' h
  rcases g2 with g2 | g2
  · exact g2
  · rw [hns] at g2; exact Bool.noConfusion g2

/-- Without `-s` in the option list, `main` always takes a fatal exit: the
`root_set` check of mkbox.c line 271 fails. -/
theorem mainE_no_s (opts : List Opt) (positional : List String)
    (uid gid : Int) (oracle : Nat → Bool) (fs0 : FS)
    (hns : opts.any Opt.isS = false) :
    ∃ tr, mainE opts positional (initSt uid gid oracle fs0) = .error tr := by
  cases hm : mainE opts positional (initSt uid gid oracle fs0) with
  | error tr => exact ⟨tr, rfl⟩
  | ok p =>
      exfalso
      unfold mainE at hm
      obtain ⟨st1, hx1, hm⟩ := bindE_ok hm
      obtain ⟨st2, hx2, hm⟩ := bindE_ok hm
      obtain ⟨st3, hx3, hm⟩ := bindE_ok hm
      obtain ⟨st4, hx4, hm⟩ := bindE_ok hm
      obtain ⟨st5, hx5, hm⟩ := bindE_ok hm
      obtain ⟨st6, hx6, hm⟩ := bindE_ok hm
      obtain ⟨ho1, h1⟩ := okCall_ok hx1
      obtain ⟨ho2, h2⟩ := okCall_ok hx2
      obtain ⟨ho3, h3⟩ := okCall_ok hx3
      obtain ⟨ho4, h4⟩ := okCall_ok hx4
      have hrs4 : st4.rootSet = false := by
        subst h1; subst h2; subst h3; subst h4; rfl
      have hrs5 : st5.rootSet = false := (doOpts_rootSet hx5 hns).trans hrs4
      rw [hrs5] at hx6
      simp [die] at hx6

/-- `splitEq` returns `none` exactly when the argument has no '='. -/
theorem splitEq_none_iff (s : List Char) :
    splitEq s = none ↔ lacksEq s = true := by
  induction s with
  | nil => simp [splitEq, lacksEq]
  | cons c cs ih =>
      by_cases hc : c = '='
      · subst hc
        simp [splitEq, lacksEq]
      · rw [show splitEq (c :: cs) = (match splitEq cs with
            | none => none
            | some (a, b) => some (c :: a, b)) from by simp [splitEq, hc]]
        rw [show lacksEq (c :: cs) = lacksEq cs from by
          simp [lacksEq, List.contains_cons, hc, Ne.symm hc]]
        cases hs : splitEq cs with
        | none => simpa [hs] using ih
        | some p => obtain ⟨a, b⟩ := p; simpa [hs] using ih

/-- When `splitEq` splits, the char after the first '=' is the
destination's head. -/
theorem splitEq_some_head {s a b : List Char} (h : splitEq s = some (a, b)) :
    charAfterFirstEq s = b.head? := by
  induction s generalizing a with
  | nil => exact Option.noConfusion h
  | cons c cs ih =>
      by_cases hc : c = '='
      · subst hc
        rw [show splitEq ('=' :: cs) = some ([], cs) from by simp [splitEq]] at h
        injection h with h
        obtain ⟨h1, h2⟩ := Prod.mk.injEq .. ▸ h
        subst h2
        simp [charAfterFirstEq]
      · rw [show splitEq (c :: cs) = (match splitEq cs with
            | none => none
            | some (a, b) => some (c :: a, b)) from by simp [splitEq, hc]] at h
        rw [show charAfterFirstEq (c :: cs) = charAfterFirstEq cs from by
          simp [charAfterFirstEq, hc]]
        cases hs : splitEq cs with
        | none => rw [hs] at h; exact Option.noConfusion h
        | some p =>
            obtain ⟨a', b'⟩ := p
            rw [hs] at h
            injection h with h
            obtain ⟨h1, h2⟩ := Prod.mk.injEq .. ▸ h
            subst h2
            exact ih hs

theorem specFrom_extends {st1 : St} {b : Bool} {x : Except Fail St}
    (hx : SpecFrom st1 b x) : ∃ d, resTrace x = st1.trace ++ d := by
  obtain ⟨d, h1, _, _⟩ := hx
  exact ⟨d, h1⟩

theorem list_ne_append_cons {α : Type} (l : List α) (a : α) (d : List α) :
    l ++ a :: d ≠ l := by
  intro h
  have hlen := congrArg List.length h
  simp at hlen

/-- An accepted `-b` argument always begins processing: its first recorded
event is the stat of the source (mkbox.c line 159). -/
theorem doOpt_b_accepted (st : St) (arg : String) (srcCs dstCs : List Char)
    (hsp : splitEq arg.data = some (srcCs, dstCs))
    (hc : ¬ dstCs.head? = some '/') :
    ∃ b2 d, resTrace (doOpt st (.b arg)) =
      st.trace ++ (Event.statc ⟨srcCs⟩, b2) :: d := by
  cases hsrc : fsGet st.fs ⟨srcCs⟩ with
  | none =>
      refine ⟨false, [], ?_⟩
      rw [show doOpt st (.b arg) =
          Except.error (st.trace ++ [(.statc ⟨srcCs⟩, false)]) from by
        simp [doOpt, hsp, hc, hsrc]]
      rfl
  | some k =>
      cases k with
      | dir =>
          rw [show doOpt st (.b arg) =
              ((match fsGet st.fs ⟨dstCs⟩ with
                | some k => Except.ok { st with trace := st.trace ++
                    [(.statc ⟨srcCs⟩, true), (.lstatc ⟨dstCs⟩ true, true)] }
                | none => recMkdir ⟨dstCs⟩
                    { st with trace := st.trace ++
                      [(.statc ⟨srcCs⟩, true), (.lstatc ⟨dstCs⟩ false, true)] }) >>=
                fun st2 =>
                  okCall st2 (.mount ⟨srcCs⟩ ⟨dstCs⟩ none [.ms_rec, .ms_bind] none))
            from by simp [doOpt, hsp, hc, hsrc]]
          cases hdst : fsGet st.fs ⟨dstCs⟩ with
          | some k2 =>
              obtain ⟨d, hd⟩ := specFrom_extends
                (specFrom_okCall
                  { st with trace := st.trace ++
                    [(.statc ⟨srcCs⟩, true), (.lstatc ⟨dstCs⟩ true, true)] }
                  false (.mount ⟨srcCs⟩ ⟨dstCs⟩ none [.ms_rec, .ms_bind] none)
                  (goodEv_of_not_tmpfs rfl))
              refine ⟨true, (.lstatc ⟨dstCs⟩ true, true) :: d, ?_⟩
              rw [show resTrace ((match (some k2 : Option FType) with
                  | some k => Except.ok { st with trace := st.trace ++
                      [(.statc ⟨srcCs⟩, true), (.lstatc ⟨dstCs⟩ true, true)] }
                  | none => recMkdir ⟨dstCs⟩
                      { st with trace := st.trace ++
                        [(.statc ⟨srcCs⟩, true), (.lstatc ⟨dstCs⟩ false, true)] }) >>=
                  fun st2 =>
                    okCall st2 (.mount ⟨srcCs⟩ ⟨dstCs⟩ none [.ms_rec, .ms_bind] none)) =
                resTrace (okCall
                  { st with trace := st.trace ++
                    [(.statc ⟨srcCs⟩, true), (.lstatc ⟨dstCs⟩ true, true)] }
                  (.mount ⟨srcCs⟩ ⟨dstCs⟩ none [.ms_rec, .ms_bind] none)) from rfl]
              rw [hd]
              simp
          | none =>
              obtain ⟨d, hd⟩ := specFrom_extends (b := false)
                (specFrom_bind
                  (specFrom_recMkdir
                    { st with trace := st.trace ++
                      [(.statc ⟨srcCs⟩, true), (.lstatc ⟨dstCs⟩ false, true)] }
                    false ⟨dstCs⟩)
                  (fun st2 h2 =>
                    specFrom_okCall st2 false
                      (.mount ⟨srcCs⟩ ⟨dstCs⟩ none [.ms_rec, .ms_bind] none)
                      (goodEv_of_not_tmpfs rfl)))
              refine ⟨true, (.lstatc ⟨dstCs⟩ false, true) :: d, ?_⟩
              rw [hd]
              simp
      | file =>
          cases hdst : fsGet st.fs ⟨dstCs⟩ with
          | some k2 =>
              cases k2 with
              | dir =>
                  refine ⟨true, [(.openw ⟨dstCs⟩, false)], ?_⟩
                  rw [show doOpt st (.b arg) = Except.error (st.trace ++
                      [(.statc ⟨srcCs⟩, true), (.openw ⟨dstCs⟩, false)]) from by
                    simp [doOpt, hsp, hc, hsrc, hdst]]
                  rfl
              | file =>
                  rw [show doOpt st (.b arg) =
                      (okCall { st with trace := st.trace ++
                          [(.statc ⟨srcCs⟩, true), (.openw ⟨dstCs⟩, true)] } .closec >>=
                        fun st3 =>
                          okCall st3 (.mount ⟨srcCs⟩ ⟨dstCs⟩ none [.ms_bind] none)) from by
                    simp [doOpt, hsp, hc, hsrc, hdst]]
                  obtain ⟨d, hd⟩ := specFrom_extends (b := false)
                    (specFrom_bind
                      (specFrom_okCall
                        { st with trace := st.trace ++
                          [(.statc ⟨srcCs⟩, true), (.openw ⟨dstCs⟩, true)] }
                        false .closec (goodEv_of_not_tmpfs rfl))
                      (fun st3 h3 =>
                        specFrom_okCall st3 false
                          (.mount ⟨srcCs⟩ ⟨dstCs⟩ none [.ms_bind] none)
                          (goodEv_of_not_tmpfs rfl)))
                  refine ⟨true, (.openw ⟨dstCs⟩, true) :: d, ?_⟩
                  rw [hd]
                  simp
          | none =>
              rw [show doOpt st (.b arg) =
                  (okCall { st with
                      fs := (⟨dstCs⟩, FType.file) :: st.fs,
                      trace := st.trace ++
                        [(.statc ⟨srcCs⟩, true), (.openw ⟨dstCs⟩, true)] } .closec >>=
                    fun st3 =>
                      okCall st3 (.mount ⟨srcCs⟩ ⟨dstCs⟩ none [.ms_bind] none)) from by
                simp [doOpt, hsp, hc, hsrc, hdst]]
              obtain ⟨d, hd⟩ := specFrom_extends (b := false)
                (specFrom_bind
                  (specFrom_okCall
                    { st with
                      fs := (⟨dstCs⟩, FType.file) :: st.fs,
                      trace := st.trace ++
                        [(.statc ⟨srcCs⟩, true), (.openw ⟨dstCs⟩, true)] }
                    false .closec (goodEv_of_not_tmpfs rfl))
                  (fun st3 h3 =>
                    specFrom_okCall st3 false
                      (.mount ⟨srcCs⟩ ⟨dstCs⟩ none [.ms_bind] none)
                      (goodEv_of_not_tmpfs rfl)))
              refine ⟨true, (.openw ⟨dstCs⟩, true) :: d, ?_⟩
              rw [hd]
              simp

/-- C1 (amended): if the argument list contains no `-s`, the process still
terminates with a nonzero status — but only at the mandatory-option check
of mkbox.c line 271, which runs after the unconditional namespace-creation
call and after the option loop; it is not true that no namespace or mount
call executes first (see the counterexample). -/
theorem C1_amended (uid gid : Int) (oracle : Nat → Bool) (fs0 : FS)
    (opts : List Opt) (positional : List String)
    (hns : opts.any Opt.isS = false) :
    (runMkbox uid gid oracle fs0 opts positional).outcome = .exited := by
  obtain ⟨tr, hm⟩ := mainE_no_s opts positional uid gid oracle fs0 hns
  unfold runMkbox
  rw [hm]

/-- C1 (witness): a concrete `-s`-less invocation exits nonzero. -/
theorem C1_witness :
    ([Opt.t "tmp"].any Opt.isS = false) ∧
    (runMkbox 0 0 (fun _ => true) [] [.t "tmp"] ["/bin/sh"]).outcome = .exited :=
  ⟨by decide, C1_amended 0 0 (fun _ => true) [] [.t "tmp"] ["/bin/sh"] (by decide)⟩

/-- C1 (counterexample): with `-t tmp` and no `-s`, the process does exit
nonzero, but the namespace-creation call (unshare) and a tmpfs mount have
both executed before that — contradicting "without having performed any
namespace-creation or mount operation". -/
theorem C1_counterexample :
    (runMkbox 0 0 (fun _ => true) [] [.t "tmp"] ["/bin/sh"]).outcome = .exited ∧
    (Event.unshare_ns, true) ∈
      (runMkbox 0 0 (fun _ => true) [] [.t "tmp"] ["/bin/sh"]).trace ∧
    (Event.mount "sandbox-tmp" "tmp" (some "tmpfs")
        [.ms_nosuid, .ms_noexec, .ms_noatime] (some tmpfsData), true) ∈
      (runMkbox 0 0 (fun _ => true) [] [.t "tmp"] ["/bin/sh"]).trace := by
  refine ⟨by decide, by decide, by decide⟩

/-- C2 (amended): every `ok(...)`-checked step of the bootstrap aborts the
process on failure; equivalently, a run that reaches the final `execv` has
no failed operation in its trace except possibly the line-121 marking of
the existing root as recursively private — whose result the code ignores —
and the tolerated setgroups-guard open.  The original claim wrongly listed
the rprivate marking among the fatally-checked steps. -/
theorem C2_amended (uid gid : Int) (oracle : Nat → Bool) (fs0 : FS)
    (opts : List Opt) (positional : List String) (b : String)
    (h : (runMkbox uid gid oracle fs0 opts positional).outcome = .execed b) :
    ∀ er ∈ (runMkbox uid gid oracle fs0 opts positional).trace,
      er.2 = false →
        er.1 = rprivateEv ∨ er.1 = .openProc "/proc/self/setgroups" :=
  runMkbox_execed_failures uid gid oracle fs0 opts positional b h

/-- C2 (witness): a concrete execed run with one tolerated failure, with
the conclusion instantiated at that failing entry. -/
theorem C2_witness :
    (runMkbox 0 0 (fun n => n != 4) [] [.s "/sb"] ["/bin/sh"]).outcome =
        .execed "/bin/sh" ∧
    ((rprivateEv, false).1 = rprivateEv ∨
      (rprivateEv, false).1 = .openProc "/proc/self/setgroups") :=
  ⟨by decide,
    C2_amended 0 0 (fun n => n != 4) [] [.s "/sb"] ["/bin/sh"] "/bin/sh"
      (by decide) (rprivateEv, false) (by decide) rfl⟩

/-- C2 (counterexample): when the kernel fails the line-121 rprivate mount
(oracle call 4) and every other call succeeds, the run still reaches
`execv` — the failure of the "mark the existing root recursively private"
step does not abort the process, contradicting the claim that each listed
step's failure causes fatal termination. -/
theorem C2_counterexample :
    (runMkbox 0 0 (fun n => n != 4) [] [.s "/sb"] ["/bin/sh"]).outcome =
        .execed "/bin/sh" ∧
    (rprivateEv, false) ∈
      (runMkbox 0 0 (fun n => n != 4) [] [.s "/sb"] ["/bin/sh"]).trace := by
  refine ⟨by decide, by decide⟩

/-- C3 (amended): every tmpfs mount of a TmpRule carries exactly the
no-setuid, no-exec and no-atime flags; the no-device flag (MS_NODEV) is
not among them — mkbox.c line 194 passes only
MS_NOSUID|MS_NOEXEC|MS_NOATIME. -/
theorem C3_amended (uid gid : Int) (oracle : Nat → Bool) (fs0 : FS)
    (opts : List Opt) (positional : List String) :
    ∀ er ∈ (runMkbox uid gid oracle fs0 opts positional).trace,
      isTmpfs er.1 = true →
        mountFlags er.1 = [.ms_nosuid, .ms_noexec, .ms_noatime] ∧
        MFlag.ms_nodev ∉ mountFlags er.1 := by
  intro er her ht
  obtain ⟨h1, h2, h3⟩ := runMkbox_good uid gid oracle fs0 opts positional er her ht
  refine ⟨h2, ?_⟩
  rw [h2]
  decide

/-- C3 (witness): the conclusion instantiated at the tmpfs mount of a
concrete `-t tmp` run. -/
theorem C3_witness :
    isTmpfs (Event.mount "sandbox-tmp" "tmp" (some "tmpfs")
        [.ms_nosuid, .ms_noexec, .ms_noatime] (some tmpfsData)) = true ∧
    (mountFlags (Event.mount "sandbox-tmp" "tmp" (some "tmpfs")
          [.ms_nosuid, .ms_noexec, .ms_noatime] (some tmpfsData)) =
        [.ms_nosuid, .ms_noexec, .ms_noatime] ∧
      MFlag.ms_nodev ∉ mountFlags (Event.mount "sandbox-tmp" "tmp" (some "tmpfs")
        [.ms_nosuid, .ms_noexec, .ms_noatime] (some tmpfsData))) :=
  ⟨by decide,
    C3_amended 0 0 (fun _ => true) [] [.s "/sb", .t "tmp"] ["/bin/sh"]
      (Event.mount "sandbox-tmp" "tmp" (some "tmpfs")
        [.ms_nosuid, .ms_noexec, .ms_noatime] (some tmpfsData), true)
      (by decide) (by decide)⟩

/-- C3 (counterexample): in a concrete `-t tmp` run a tmpfs mount occurs,
and no tmpfs mount in the whole trace carries the no-device flag — so the
tmpfs mount does not carry all four claimed restrictions. -/
theorem C3_counterexample :
    ((runMkbox 0 0 (fun _ => true) [] [.s "/sb", .t "tmp"] ["/bin/sh"]).trace.any
        (fun er => isTmpfs er.1)) = true ∧
    ((runMkbox 0 0 (fun _ => true) [] [.s "/sb", .t "tmp"] ["/bin/sh"]).trace.all
        (fun er =>
          !(isTmpfs er.1 && (mountFlags er.1).contains MFlag.ms_nodev))) = true := by
  refine ⟨by decide, by decide⟩

/-- C5: a `-b` argument lacking '=' or whose destination begins with '/'
is rejected by `errorf` with the trace unchanged — no stat, creation or
mount event for that rule is ever issued. -/
theorem C5_thm (st : St) (arg : String)
    (h : splitEq arg.data = none ∨
      ∃ srcCs rest, splitEq arg.data = some (srcCs, '/' :: rest)) :
    doOpt st (.b arg) = .error st.trace := by
  rcases h with h | ⟨srcCs, rest, h⟩
  · simp [doOpt, h, die]
  · simp [doOpt, h, die]

/-- C5 (witness): the absolute destination "etc" of "src=/etc" is rejected
with nothing performed, from a concrete state. -/
theorem C5_witness :
    (splitEq ("src=/etc").data = none ∨
      ∃ srcCs rest, splitEq ("src=/etc").data = some (srcCs, '/' :: rest)) ∧
    doOpt (initSt 0 0 (fun _ => true) []) (.b "src=/etc") =
      .error (initSt 0 0 (fun _ => true) []).trace :=
  ⟨.inr ⟨['s', 'r', 'c'], ['e', 't', 'c'], by decide⟩,
    C5_thm (initSt 0 0 (fun _ => true) []) "src=/etc"
      (.inr ⟨['s', 'r', 'c'], ['e', 't', 'c'], by decide⟩)⟩

/-- C9: the tmpfs quota options are a caller-uncontrollable constant: in
every run, whatever the configuration, every tmpfs mount uses the data
string "size=16m,nr_inodes=16k,mode=755" and the fixed source
"sandbox-tmp". -/
theorem C9_thm (uid gid : Int) (oracle : Nat → Bool) (fs0 : FS)
    (opts : List Opt) (positional : List String) :
    ∀ er ∈ (runMkbox uid gid oracle fs0 opts positional).trace,
      isTmpfs er.1 = true →
        mountData er.1 = some tmpfsData ∧ mountSrc er.1 = "sandbox-tmp" := by
  intro er her ht
  obtain ⟨h1, h2, h3⟩ := runMkbox_good uid gid oracle fs0 opts positional er her ht
  exact ⟨h3, h1⟩

/-- C9 (witness): the conclusion instantiated at the tmpfs mount of a
concrete `-t scratch` run. -/
theorem C9_witness :
    isTmpfs (Event.mount "sandbox-tmp" "scratch" (some "tmpfs")
        [.ms_nosuid, .ms_noexec, .ms_noatime] (some tmpfsData)) = true ∧
    (mountData (Event.mount "sandbox-tmp" "scratch" (some "tmpfs")
          [.ms_nosuid, .ms_noexec, .ms_noatime] (some tmpfsData)) =
        some tmpfsData ∧
      mountSrc (Event.mount "sandbox-tmp" "scratch" (some "tmpfs")
          [.ms_nosuid, .ms_noexec, .ms_noatime] (some tmpfsData)) = "sandbox-tmp") :=
  ⟨by decide,
    C9_thm 7 7 (fun _ => true) [] [.s "/r", .t "scratch"] ["/bin/true"]
      (Event.mount "sandbox-tmp" "scratch" (some "tmpfs")
        [.ms_nosuid, .ms_noexec, .ms_noatime] (some tmpfsData), true)
      (by decide) (by decide)⟩

/-- C10: `-b` validation is purely syntactic and minimal: the rule is
rejected (fatal exit with nothing recorded) iff the argument lacks '=' or
the character immediately following the first '=' is '/'; otherwise
processing begins with the source stat — in particular a destination
starting with ".." is accepted and processed. -/
theorem C10_thm (st : St) (arg : String) :
    (doOpt st (.b arg) = .error st.trace ↔
      (lacksEq arg.data = true ∨ charAfterFirstEq arg.data = some '/')) ∧
    (lacksEq arg.data = false → charAfterFirstEq arg.data ≠ some '/' →
      ∃ srcCs dstCs b2 d, splitEq arg.data = some (srcCs, dstCs) ∧
        resTrace (doOpt st (.b arg)) =
          st.trace ++ (Event.statc ⟨srcCs⟩, b2) :: d) := by
  cases hsp : splitEq arg.data with
  | none =>
      have hlacks : lacksEq arg.data = true := (splitEq_none_iff _).mp hsp
      constructor
      · exact ⟨fun _ => .inl hlacks, fun _ => by simp [doOpt, hsp, die]⟩
      · intro hf
        exact absurd (hlacks.symm.trans hf) (by decide)
  | some p =>
      obtain ⟨srcCs, dstCs⟩ := p
      have hcontains : lacksEq arg.data = false := by
        cases hl : lacksEq arg.data
        · rfl
        · rw [(splitEq_none_iff _).mpr hl] at hsp
          exact Option.noConfusion hsp
      have hhead : charAfterFirstEq arg.data = dstCs.head? := splitEq_some_head hsp
      by_cases hc : dstCs.head? = some '/'
      · constructor
        · exact ⟨fun _ => .inr (hhead.trans hc), fun _ => by simp [doOpt, hsp, hc, die]⟩
        · intro h1 h2
          exact absurd (hhead.trans hc) h2
      · obtain ⟨b2, d, hd⟩ := doOpt_b_accepted st arg srcCs dstCs hsp hc
        constructor
        · constructor
          · intro heq
            rw [heq] at hd
            exact absurd hd.symm (list_ne_append_cons _ _ _)
          · intro hr
            rcases hr with hr | hr
            · exact absurd (hcontains.symm.trans hr) (by decide)
            · exact absurd (hhead.symm.trans hr) hc
        · intro h1 h2
          exact ⟨srcCs, dstCs, b2, d, rfl, hd⟩

/-- C10 (witness): "src=../x" (destination escaping upward) is not
rejected and its processing begins with the source stat. -/
theorem C10_witness :
    (lacksEq ("src=../x").data = false) ∧
    (charAfterFirstEq ("src=../x").data ≠ some '/') ∧
    (∃ srcCs dstCs b2 d, splitEq ("src=../x").data = some (srcCs, dstCs) ∧
      resTrace (doOpt (initSt 0 0 (fun _ => true) []) (.b "src=../x")) =
        (initSt 0 0 (fun _ => true) []).trace ++
          (Event.statc ⟨srcCs⟩, b2) :: d) :=
  ⟨by decide, by decide,
    (C10_thm (initSt 0 0 (fun _ => true) []) "src=../x").2 (by decide) (by decide)⟩

/-- C6: `-u u` with invoking real uid `r` (read by `getuid` at entry)
writes exactly the single line "u r 1\n" to /proc/self/uid_map, closes it,
and then sets the real, effective and saved uid all to `u`
(mkbox.c lines 199-213). -/
theorem C6_thm (st : St) (arg : String) (u : Int)
    (hparse : scanInt arg.data = some u)
    (hor : ∀ n, st.oracle n = true) :
    doOpt st (.u arg) = .ok { st with
      clock := st.clock + 4,
      trace := st.trace ++
        [(.openProc "/proc/self/uid_map", true),
         (.wr "/proc/self/uid_map"
            (toString u ++ " " ++ toString st.uid ++ " 1\n"), true),
         (.closec, true),
         (.setresuid u u u, true)] } := by
  rw [show doOpt st (.u arg) =
      (okCall st (.openProc "/proc/self/uid_map") >>= fun st1 =>
        okCall st1 (.wr "/proc/self/uid_map" (idLine u st.uid)) >>= fun st2 =>
        okCall st2 .closec >>= fun st3 =>
        okCall st3 (.setresuid u u u)) from by simp [doOpt, hparse]]
  simp [okCall, hor, idLine]

/-- C6 (witness): `-u 1000` from a concrete entry state with real uid 3. -/
theorem C6_witness :
    scanInt ("1000").data = some 1000 ∧
    doOpt (initSt 3 5 (fun _ => true) []) (.u "1000") =
      .ok { initSt 3 5 (fun _ => true) [] with
        clock := (initSt 3 5 (fun _ => true) []).clock + 4,
        trace := (initSt 3 5 (fun _ => true) []).trace ++
          [(.openProc "/proc/self/uid_map", true),
           (.wr "/proc/self/uid_map"
              (toString (1000 : Int) ++ " " ++
                toString (initSt 3 5 (fun _ => true) []).uid ++ " 1\n"), true),
           (.closec, true),
           (.setresuid 1000 1000 1000, true)] } :=
  ⟨by decide, C6_thm (initSt 3 5 (fun _ => true) []) "1000" 1000 (by decide)
    (fun n => rfl)⟩

/-- C7 (amended): within the `-g` gid-mapping sequence the only tolerated
failure is the open of /proc/self/setgroups: whenever `-g` processing
continues, every other call it recorded succeeded.  Bootstrap-wide,
however, this is not the only tolerated failure — the result of the
line-121 rprivate mount is also ignored (see the counterexample). -/
theorem C7_amended (st : St) (arg : String) (st' : St)
    (h : doOpt st (.g arg) = .ok st') :
    ∃ delta, st'.trace = st.trace ++ delta ∧
      ∀ er ∈ delta, er.2 = false → er.1 = .openProc "/proc/self/setgroups" := by
  rw [show doOpt st (.g arg) =
      ((if st.oracle st.clock then
          okCall { st with
              clock := st.clock + 1,
              trace := st.trace ++
                [(.openProc "/proc/self/setgroups", st.oracle st.clock)] }
            (.wr "/proc/self/setgroups" "deny") >>= fun sta =>
          okCall sta .closec
        else Except.ok { st with
          clock := st.clock + 1,
          trace := st.trace ++
            [(.openProc "/proc/self/setgroups", st.oracle st.clock)] }) >>= fun st2 =>
        match scanInt arg.data with
        | none => die st2
        | some newgid =>
            okCall st2 (.openProc "/proc/self/gid_map") >>= fun st3 =>
            okCall st3 (.wr "/proc/self/gid_map" (idLine newgid st.gid)) >>= fun st4 =>
            okCall st4 .closec >>= fun st5 =>
            okCall st5 (.setresgid newgid newgid newgid)) from by
    simp [doOpt, rawCall]] at h
  cases hr : st.oracle st.clock with
  | false =>
      rw [hr] at h
      rw [if_neg (by simp)] at h
      rw [bind_okk] at h
      cases hsc : scanInt arg.data with
      | none =>
          rw [hsc] at h
          simp only [] at h
          exact Except.noConfusion h
      | some newgid =>
          rw [hsc] at h
          simp only [] at h
          obtain ⟨s3, h3, h⟩ := bindE_ok h
          obtain ⟨ho3, e3⟩ := okCall_ok h3
          subst e3
          obtain ⟨s4, h4, h⟩ := bindE_ok h
          obtain ⟨ho4, e4⟩ := okCall_ok h4
          subst e4
          obtain ⟨s5, h5, h⟩ := bindE_ok h
          obtain ⟨ho5, e5⟩ := okCall_ok h5
          subst e5
          obtain ⟨ho6, e6⟩ := okCall_ok h
          subst e6
          refine ⟨[(.openProc "/proc/self/setgroups", false),
                   (.openProc "/proc/self/gid_map", true),
                   (.wr "/proc/self/gid_map" (idLine newgid st.gid), true),
                   (.closec, true),
                   (.setresgid newgid newgid newgid, true)], by simp, ?_⟩
          intro er her hf
          simp only [List.mem_cons, List.not_mem_nil, or_false] at her
          rcases her with rfl | rfl | rfl | rfl | rfl
          · rfl
          · exact Bool.noConfusion hf
          · exact Bool.noConfusion hf
          · exact Bool.noConfusion hf
          · exact Bool.noConfusion hf
  | true =>
      rw [hr] at h
      rw [if_pos rfl] at h
      obtain ⟨s2, h2, h⟩ := bindE_ok h
      obtain ⟨sa, ha, h2⟩ := bindE_ok h2
      obtain ⟨hoa, ea⟩ := okCall_ok ha
      subst ea
      obtain ⟨hob, eb⟩ := okCall_ok h2
      subst eb
      simp only [] at h
      cases hsc : scanInt arg.data with
      | none =>
          rw [hsc] at h
          simp only [] at h
          exact Except.noConfusion h
      | some newgid =>
          rw [hsc] at h
          simp only [] at h
          obtain ⟨s3, h3, h⟩ := bindE_ok h
          obtain ⟨ho3, e3⟩ := okCall_ok h3
          subst e3
          obtain ⟨s4, h4, h⟩ := bindE_ok h
          obtain ⟨ho4, e4⟩ := okCall_ok h4
          subst e4
          obtain ⟨s5, h5, h⟩ := bindE_ok h
          obtain ⟨ho5, e5⟩ := okCall_ok h5
          subst e5
          obtain ⟨ho6, e6⟩ := okCall_ok h
          subst e6
          refine ⟨[(.openProc "/proc/self/setgroups", true),
                   (.wr "/proc/self/setgroups" "deny", true),
                   (.closec, true),
                   (.openProc "/proc/self/gid_map", true),
                   (.wr "/proc/self/gid_map" (idLine newgid st.gid), true),
                   (.closec, true),
                   (.setresgid newgid newgid newgid, true)], by simp, ?_⟩
          intro er her hf
          simp only [List.mem_cons, List.not_mem_nil, or_false] at her
          rcases her with rfl | rfl | rfl | rfl | rfl | rfl | rfl
          all_goals exact Bool.noConfusion hf

/-- C7 (witness): a concrete successful `-g 0` continuation. -/
theorem C7_witness :
    ∃ delta, gWitnessSt.trace = (initSt 0 6 (fun _ => true) []).trace ++ delta ∧
      ∀ er ∈ delta, er.2 = false → er.1 = .openProc "/proc/self/setgroups" :=
  C7_amended (initSt 0 6 (fun _ => true) []) "0" gWitnessSt rfl

/-- C7 (counterexample): with the line-121 rprivate mount failing (oracle
call 4) and `-g 0` present, the run still reaches `execv`, so the absence
of the setgroups guard file is not the only failure the bootstrap
tolerates. -/
theorem C7_counterexample :
    (runMkbox 0 0 (fun n => n != 4) [] [.s "/sb", .g "0"] ["/bin/sh"]).outcome =
        .execed "/bin/sh" ∧
    (rprivateEv, false) ∈
      (runMkbox 0 0 (fun n => n != 4) [] [.s "/sb", .g "0"] ["/bin/sh"]).trace ∧
    ¬ rprivateEv = .openProc "/proc/self/setgroups" := by
  refine ⟨by decide, by decide, by decide⟩

/-- C8: re-running against already-created targets is idempotent for
creation: a `-b` rule whose source and destination both exist with the
same kind issues no mkdir and reaches its bind mount (directories are
skipped after the lstat probe; files are opened O_CREAT without O_EXCL),
and a `-t` rule whose mount point exists issues no mkdir and reaches the
tmpfs mount. -/
theorem C8_thm (st : St) (argB : String) (srcCs dstCs : List Char) (k : FType)
    (argT : String) (kt : FType)
    (hor : ∀ n, st.oracle n = true)
    (hsp : splitEq argB.data = some (srcCs, dstCs))
    (hc : ¬ dstCs.head? = some '/')
    (hsrc : fsGet st.fs ⟨srcCs⟩ = some k)
    (hdst : fsGet st.fs ⟨dstCs⟩ = some k)
    (ht : fsGet st.fs argT = some kt) :
    (∃ st' delta, doOpt st (.b argB) = .ok st' ∧
      st'.trace = st.trace ++ delta ∧
      (∀ er ∈ delta, isMkdirEv er.1 = false) ∧
      (∃ fl, (Event.mount ⟨srcCs⟩ ⟨dstCs⟩ none fl none, true) ∈ delta)) ∧
    (∃ st' delta, doOpt st (.t argT) = .ok st' ∧
      st'.trace = st.trace ++ delta ∧
      (∀ er ∈ delta, isMkdirEv er.1 = false) ∧
      (Event.mount "sandbox-tmp" argT (some "tmpfs")
          [.ms_nosuid, .ms_noexec, .ms_noatime] (some tmpfsData), true) ∈ delta) := by
  refine ⟨?_, ?_⟩
  · cases k with
    | dir =>
        refine ⟨{ st with
            clock := st.clock + 1,
            trace := st.trace ++
              [(.statc ⟨srcCs⟩, true), (.lstatc ⟨dstCs⟩ true, true),
               (.mount ⟨srcCs⟩ ⟨dstCs⟩ none [.ms_rec, .ms_bind] none, true)] },
          [(.statc ⟨srcCs⟩, true), (.lstatc ⟨dstCs⟩ true, true),
           (.mount ⟨srcCs⟩ ⟨dstCs⟩ none [.ms_rec, .ms_bind] none, true)],
          ?_, rfl, ?_, ⟨[.ms_rec, .ms_bind], by simp⟩⟩
        · simp [doOpt, okCall, hor, hsp, hc, hsrc, hdst]
        · intro er her
          rcases mem_triple her with rfl | rfl | rfl
          · rfl
          · rfl
          · rfl
    | file =>
        refine ⟨{ st with
            clock := st.clock + 2,
            trace := st.trace ++
              [(.statc ⟨srcCs⟩, true), (.openw ⟨dstCs⟩, true), (.closec, true),
               (.mount ⟨srcCs⟩ ⟨dstCs⟩ none [.ms_bind] none, true)] },
          [(.statc ⟨srcCs⟩, true), (.openw ⟨dstCs⟩, true), (.closec, true),
           (.mount ⟨srcCs⟩ ⟨dstCs⟩ none [.ms_bind] none, true)],
          ?_, rfl, ?_, ⟨[.ms_bind], by simp⟩⟩
        · simp [doOpt, okCall, hor, hsp, hc, hsrc, hdst]
        · intro er her
          rcases mem_quad her with rfl | rfl | rfl | rfl
          · rfl
          · rfl
          · rfl
          · rfl
  · refine ⟨{ st with
        clock := st.clock + 1,
        trace := st.trace ++
          [(.lstatc argT true, true),
           (.mount "sandbox-tmp" argT (some "tmpfs")
              [.ms_nosuid, .ms_noexec, .ms_noatime] (some tmpfsData), true)] },
      [(.lstatc argT true, true),
       (.mount "sandbox-tmp" argT (some "tmpfs")
          [.ms_nosuid, .ms_noexec, .ms_noatime] (some tmpfsData), true)],
      ?_, rfl, ?_, by simp⟩
    · simp [doOpt, okCall, hor, ht]
    · intro er her
      rcases mem_pair her with rfl | rfl
      · rfl
      · rfl

/-- C8 (witness): the conclusion at a concrete previously-used root:
`-b /etc/hosts=etc/hosts` with both file and target existing as files, and
`-t tmp` with the mount point existing. -/
theorem C8_witness :
    (∃ st' delta, doOpt rerunSt (.b "/etc/hosts=etc/hosts") = .ok st' ∧
      st'.trace = rerunSt.trace ++ delta ∧
      (∀ er ∈ delta, isMkdirEv er.1 = false) ∧
      (∃ fl, (Event.mount ⟨("/etc/hosts").data⟩ ⟨("etc/hosts").data⟩ none fl none,
        true) ∈ delta)) ∧
    (∃ st' delta, doOpt rerunSt (.t "tmp") = .ok st' ∧
      st'.trace = rerunSt.trace ++ delta ∧
      (∀ er ∈ delta, isMkdirEv er.1 = false) ∧
      (Event.mount "sandbox-tmp" "tmp" (some "tmpfs")
          [.ms_nosuid, .ms_noexec, .ms_noatime] (some tmpfsData), true) ∈ delta) :=
  C8_thm rerunSt "/etc/hosts=etc/hosts" ("/etc/hosts").data ("etc/hosts").data
    FType.file "tmp" FType.dir (fun n => rfl) (by decide) (by decide)
    (by decide) (by decide) (by decide)

/-- Inversion of a successful handoff: it appends exactly the capability
drop and the `execv` of the handed binary. -/
theorem handoff_spec {positional : List String} {st stf : St} {b : String}
    (hm : handoff positional st = .ok (stf, b)) :
    stf.trace = st.trace ++ [(Event.dropcaps, true), (Event.execv b, true)] := by
  unfold handoff at hm
  obtain ⟨s14, hx14, hm⟩ := bindE_ok hm
  obtain ⟨ho14, e14⟩ := okCall_ok hx14
  have t14 : s14.trace = st.trace ++ [(Event.dropcaps, true)] := by rw [e14]
  cases hbin : s14.binary with
  | some bb =>
      rw [hbin] at hm
      obtain ⟨s15, hx15, hm⟩ := bindE_ok hm
      obtain ⟨ho15, e15⟩ := okCall_ok hx15
      have t15 : s15.trace = s14.trace ++ [(Event.execv bb, true)] := by rw [e15]
      rw [show (pure (s15, bb) : Except Fail (St × String)) = .ok (s15, bb)
        from rfl] at hm
      injection hm with hp
      injection hp with hst hbb
      subst hst
      subst hbb
      rw [t15, t14]
      simp
  | none =>
      rw [hbin] at hm
      cases positional with
      | nil => exact Except.noConfusion hm
      | cons c rest =>
          obtain ⟨s15, hx15, hm⟩ := bindE_ok hm
          obtain ⟨ho15, e15⟩ := okCall_ok hx15
          have t15 : s15.trace = s14.trace ++ [(Event.execv c, true)] := by rw [e15]
          rw [show (pure (s15, c) : Except Fail (St × String)) = .ok (s15, c)
            from rfl] at hm
          injection hm with hp
          injection hp with hst hbb
          subst hst
          subst hbb
          rw [t15, t14]
          simp

/-- C4: in every run that reaches the handoff, the old root is detached
(lazy unmount then removal of the throwaway directory) immediately before
the read-only remount of "/", whose flags are exactly
MS_REMOUNT|MS_BIND|MS_NOEXEC|MS_NOSUID|MS_NODEV|MS_RDONLY, and no mount
operation occurs after that remount: the only later events are the
optional working-directory change, the capability drop and the `execv`. -/
theorem C4_thm (uid gid : Int) (oracle : Nat → Bool) (fs0 : FS)
    (opts : List Opt) (positional : List String) (b : String)
    (h : (runMkbox uid gid oracle fs0 opts positional).outcome = .execed b) :
    mountFlags remountEv =
      [.ms_remount, .ms_bind, .ms_noexec, .ms_nosuid, .ms_nodev, .ms_rdonly] ∧
    ∃ pre post,
      (runMkbox uid gid oracle fs0 opts positional).trace =
        pre ++ (Event.umountDetach ".oldroot", true) ::
          (Event.rmdirc ".oldroot", true) :: (remountEv, true) :: post ∧
      (∀ er ∈ post, isMount er.1 = false) ∧
      (post = [(.dropcaps, true), (.execv b, true)] ∨
        ∃ d, post = [(.chdir d, true), (.dropcaps, true), (.execv b, true)]) := by
  refine ⟨rfl, ?_⟩
  unfold runMkbox at h ⊢
  cases hm : mainE opts positional (initSt uid gid oracle fs0) with
  | error tr =>
      rw [hm] at h
      simp at h
  | ok p =>
      obtain ⟨stf, b'⟩ := p
      rw [hm] at h
      have hb : b' = b := by simpa using h
      subst hb
      dsimp only
      unfold mainE at hm
      obtain ⟨s1, hx1, hm⟩ := bindE_ok hm
      obtain ⟨s2, hx2, hm⟩ := bindE_ok hm
      obtain ⟨s3, hx3, hm⟩ := bindE_ok hm
      obtain ⟨s4, hx4, hm⟩ := bindE_ok hm
      obtain ⟨s5, hx5, hm⟩ := bindE_ok hm
      obtain ⟨s6, hx6, hm⟩ := bindE_ok hm
      obtain ⟨s7, hx7, hm⟩ := bindE_ok hm
      obtain ⟨s8, hx8, hm⟩ := bindE_ok hm
      obtain ⟨s9, hx9, hm⟩ := bindE_ok hm
      obtain ⟨s10, hx10, hm⟩ := bindE_ok hm
      obtain ⟨s11, hx11, hm⟩ := bindE_ok hm
      obtain ⟨s12, hx12, hm⟩ := bindE_ok hm
      obtain ⟨s13, hx13, hm⟩ := bindE_ok hm
      obtain ⟨ho7, e7⟩ := okCall_ok hx7
      obtain ⟨ho8, e8⟩ := okCall_ok hx8
      obtain ⟨ho9, e9⟩ := okCall_ok hx9
      obtain ⟨ho10, e10⟩ := okCall_ok hx10
      obtain ⟨ho11, e11⟩ := okCall_ok hx11
      obtain ⟨ho12, e12⟩ := okCall_ok hx12
      have t7 : s7.trace = s6.trace ++ [(Event.mkdirc ".oldroot", true)] := by rw [e7]
      have t8 : s8.trace = s7.trace ++ [(Event.pivot "." ".oldroot", true)] := by
        rw [e8]
      have t9 : s9.trace = s8.trace ++ [(Event.chrootc ".", true)] := by rw [e9]
      have t10 : s10.trace = s9.trace ++ [(Event.umountDetach ".oldroot", true)] := by
        rw [e10]
      have t11 : s11.trace = s10.trace ++ [(Event.rmdirc ".oldroot", true)] := by
        rw [e11]
      have t12 : s12.trace = s11.trace ++ [(remountEv, true)] := by rw [e12]
      cases hcd : s12.childDir with
      | some d =>
          rw [hcd] at hx13
          obtain ⟨ho13, e13⟩ := okCall_ok hx13
          have t13 : s13.trace = s12.trace ++ [(Event.chdir d, true)] := by rw [e13]
          have tf := handoff_spec hm
          refine ⟨s6.trace ++ [(Event.mkdirc ".oldroot", true),
              (Event.pivot "." ".oldroot", true), (Event.chrootc ".", true)],
            [(Event.chdir d, true), (Event.dropcaps, true), (Event.execv b', true)],
            ?_, ?_, .inr ⟨d, rfl⟩⟩
          · rw [tf, t13, t12, t11, t10, t9, t8, t7]
            simp
          · intro er her
            rcases mem_triple her with rfl | rfl | rfl
            · rfl
            · rfl
            · rfl
      | none =>
          rw [hcd] at hx13
          rw [show (pure s12 : Except Fail St) = .ok s12 from rfl] at hx13
          injection hx13 with e13
          subst e13
          have tf := handoff_spec hm
          refine ⟨s6.trace ++ [(Event.mkdirc ".oldroot", true),
              (Event.pivot "." ".oldroot", true), (Event.chrootc ".", true)],
            [(Event.dropcaps, true), (Event.execv b', true)],
            ?_, ?_, .inl rfl⟩
          · rw [tf, t12, t11, t10, t9, t8, t7]
            simp
          · intro er her
            rcases mem_pair her with rfl | rfl
            · rfl
            · rfl

/-- C4 (witness): the decomposition at a concrete run with `-s /sb` and a
working directory `-d work`. -/
theorem C4_witness :
    (runMkbox 0 0 (fun _ => true) [] [.s "/sb", .d "work"] ["/bin/sh"]).outcome =
        .execed "/bin/sh" ∧
    (mountFlags remountEv =
        [.ms_remount, .ms_bind, .ms_noexec, .ms_nosuid, .ms_nodev, .ms_rdonly] ∧
      ∃ pre post,
        (runMkbox 0 0 (fun _ => true) [] [.s "/sb", .d "work"] ["/bin/sh"]).trace =
          pre ++ (Event.umountDetach ".oldroot", true) ::
            (Event.rmdirc ".oldroot", true) :: (remountEv, true) :: post ∧
        (∀ er ∈ post, isMount er.1 = false) ∧
        (post = [(.dropcaps, true), (.execv "/bin/sh", true)] ∨
          ∃ d, post = [(.chdir d, true), (.dropcaps, true),
            (.execv "/bin/sh", true)])) :=
  ⟨by decide,
    C4_thm 0 0 (fun _ => true) [] [.s "/sb", .d "work"] ["/bin/sh"] "/bin/sh"
      (by decide)⟩

end Mkbox
